import Mathlib

/-!
Shallow embedding of the MSweep mark-and-sweep collector
(src/hotspot/share/gc/msweep): the allocation paths, TLAB sizing,
collection-cause dispatch, the bitmap commit/uncommit lifecycle, and the
mark and sweep phases, together with theorems settling the specification
claims about them.
-/

namespace MSweep

/-- HotSpot align_up for a power-of-two alignment, written arithmetically:
round s up to the next multiple of a (for powers of two this equals the
bit-mask formula used in C++). -/
def alignUp (s a : Nat) : Nat := ((s + a - 1) / a) * a

/-- HotSpot align_down: round s down to a multiple of a. -/
def alignDown (s a : Nat) : Nat := (s / a) * a

/-- HotSpot clamp(value, low, high) = MIN2(MAX2(value, low), high),
as used at msweepHeap.cpp line 157. -/
def clampSize (v lo hi : Nat) : Nat := min (max v lo) hi

/-- is_object_aligned for a size in words: divisible by the minimum
object alignment a. -/
def isObjectAligned (a s : Nat) : Bool := s % a == 0

/-- MSweepArguments TLAB-size startup adjustment (msweepArguments.cpp):
if MSweepMaxTLABSize < MinTLABSize, log a warning and set it to MinTLABSize,
else leave it unchanged. Returns the resulting MSweepMaxTLABSize and whether
the warning was logged. The routine always returns normally (never fatal). -/
def adjustMSweepMaxTLABSize (msweepMaxTLABSize minTLABSize : Nat) : Nat × Bool :=
  if msweepMaxTLABSize < minTLABSize then (minTLABSize, true)
  else (msweepMaxTLABSize, false)

/-- MSweepHeap::allocate_work (msweepHeap.cpp lines 136-145): a defensive
assert that the size is object-aligned, then allocation from the free-list
space. The free-list allocator is a parameter: its code lives in
MSweepFreeListSpace, outside these sources. The fatal assert is modelled
as Except.error. -/
def allocate_work (a : Nat) (alloc : Nat → Option Nat) (size : Nat) :
    Except Unit (Option Nat) :=
  if isObjectAligned a size then Except.ok (alloc size) else Except.error ()

/-- Events observable on the allocate-or-collect path. -/
inductive AllocEvent
  | tryAlloc
  | collectCycle
  deriving DecidableEq

/-- MSweepHeap::allocate_or_collect_work (msweepHeap.cpp lines 245-252)
over an abstract heap state: try allocation; if it returns the null
sentinel, run one synchronous collection cycle and retry exactly once.
The third component is the trace of events performed. -/
def allocate_or_collect_work {σ : Type} (alloc : σ → Nat → Option Nat × σ)
    (gc : σ → σ) (s : σ) (size : Nat) : Option Nat × σ × List AllocEvent :=
  match alloc s size with
  | (some a, s1) => (some a, s1, [AllocEvent.tryAlloc])
  | (none, s1) =>
      match alloc (gc s1) size with
      | (r2, s3) =>
          (r2, s3, [AllocEvent.tryAlloc, AllocEvent.collectCycle, AllocEvent.tryAlloc])

/-- Result of allocate_new_tlab: the returned address, and the value of the
actual_size out-parameter after the call. -/
structure TLABResult where
  res : Option Nat
  actual : Nat
  deriving DecidableEq

/-- MSweepHeap::allocate_new_tlab (msweepHeap.cpp lines 147-181): clamp the
requested size to [min_size, _max_tlab_size], align it up to MinObjAlignment,
allocate, and write the actual_size out-parameter only when the result is
non-null (actualIn is the value of the out-parameter before the call). -/
def allocate_new_tlab (a maxTlab : Nat) (allocOrCollect : Nat → Option Nat)
    (minSize requestedSize actualIn : Nat) : TLABResult :=
  let size := alignUp (clampSize requestedSize minSize maxTlab) a
  let r := allocOrCollect size
  { res := r, actual := if r.isSome then size else actualIn }

/-- The _max_tlab_size computed at heap startup (msweepHeap.cpp line 107):
MIN2 of the global max TLAB size and
align_object_size(MSweepMaxTLABSize / HeapWordSize). -/
def max_tlab_size (globalMax a msweepMaxBytes heapWordSize : Nat) : Nat :=
  min globalMax (alignUp (msweepMaxBytes / heapWordSize) a)

/-- Modelled from the spec: CollectedHeap::max_tlab_size, the global maximum
TLAB size, is not among these sources; per the spec it is a global cap kept
aligned to the minimum object alignment (in the host runtime it is the
maximal int-array size aligned down). -/
def globalMaxTlabSize (maxIntSize a : Nat) : Nat := alignDown maxIntSize a

/-- The collection causes relevant to MSweepHeap::collect dispatch (a
representative finite slice of the GCCause enumeration). -/
inductive GCCause
  | allocation_failure
  | java_lang_system_gc
  | metadata_GC_threshold
  | metadata_GC_clear_soft_refs
  | wb_breakpoint
  | no_gc
  deriving DecidableEq

/-- The effects performed by the collection entry points. -/
inductive GCOp
  | tryCommitBitmap
  | ensureParsability
  | markPhase
  | sweepPhase
  | tryUncommitBitmap
  | logWarning
  | logInfo
  | metaspaceComputeNewSize
  deriving DecidableEq

/-- Which modelled operations mutate collector heap state (bitmap storage,
TLABs, mark bitmap, free list). Logging and metaspace sizing do not. -/
def GCOp.touchesHeap : GCOp → Bool
  | GCOp.tryCommitBitmap => true
  | GCOp.ensureParsability => true
  | GCOp.markPhase => true
  | GCOp.sweepPhase => true
  | GCOp.tryUncommitBitmap => true
  | _ => false

/-- MSweepHeap::prologue (msweepHeap.cpp lines 332-338) as its trace of
effects, as a function of whether os::commit_memory succeeds: on commit
failure the function returns early, with no log and no TLAB flush; on
success it retires all TLABs via ensure_parsability. In either case it
returns normally (no error value). -/
def prologue (commitOk : Bool) : List GCOp :=
  if commitOk then [GCOp.tryCommitBitmap, GCOp.ensureParsability]
  else [GCOp.tryCommitBitmap]

/-- MSweepHeap::epilogue (msweepHeap.cpp lines 363-367) trace: try to
uncommit the bitmap backing storage; on failure log a warning; returns
normally in either case. -/
def epilogue (uncommitOk : Bool) : List GCOp :=
  if uncommitOk then [GCOp.tryUncommitBitmap]
  else [GCOp.tryUncommitBitmap, GCOp.logWarning]

/-- MSweepHeap::entry_collect (msweepHeap.cpp lines 231-236) trace:
prologue; mark; sweep; epilogue, unconditionally in that order. -/
def entry_collect (commitOk uncommitOk : Bool) : List GCOp :=
  prologue commitOk ++ [GCOp.markPhase, GCOp.sweepPhase] ++ epilogue uncommitOk

/-- The two metadata sizing causes recognized by MSweepHeap::collect. -/
def isMetadataCause : GCCause → Bool
  | GCCause.metadata_GC_threshold => true
  | GCCause.metadata_GC_clear_soft_refs => true
  | _ => false

/-- MSweepHeap::collect (msweepHeap.cpp lines 369-384) trace: the two
metadata causes log and delegate to MetaspaceGC::compute_new_size; every
other cause is logged as ignored and nothing else happens. -/
def collect (cause : GCCause) : List GCOp :=
  match cause with
  | GCCause.metadata_GC_threshold => [GCOp.logInfo, GCOp.metaspaceComputeNewSize]
  | GCCause.metadata_GC_clear_soft_refs => [GCOp.logInfo, GCOp.metaspaceComputeNewSize]
  | _ => [GCOp.logInfo]

/-- An object visited by the sweep iteration: its start address and its
size in words. -/
structure ObjInfo where
  addr : Nat
  size : Nat
  deriving DecidableEq

/-- A free-list node as built by SweepClosure::do_object: chunk start
address and chunk size. -/
structure MSweepNode where
  start : Nat
  chunkSize : Nat
  deriving DecidableEq

/-- The state the sweep phase acts on: the live mark bitmap (read only
during sweep) and the free list. -/
structure SweepState where
  marked : Nat → Bool
  freeList : List MSweepNode

/-- SweepClosure::do_object (msweepHeap.cpp lines 322-329): if the object's
address is not marked in the live bitmap, build a node
(object address, adjust_chunk_size(object size)) and append it to the free
list; a marked object is left untouched. adjust_chunk_size is a parameter
(its code lives in MSweepFreeList, outside these sources), and
MSweepFreeList::append is modelled, per the spec, as appending at the tail. -/
def sweepDoObject (adjust : Nat → Nat) (st : SweepState) (o : ObjInfo) : SweepState :=
  if st.marked o.addr then st
  else { st with freeList := st.freeList ++ [{ start := o.addr, chunkSize := adjust o.size }] }

/-- MSweepHeap::sweep (msweepHeap.cpp lines 358-361): object_iterate over
the free-list space applies SweepClosure to every object in iteration
order. -/
def sweep (adjust : Nat → Nat) (objs : List ObjInfo) (st : SweepState) : SweepState :=
  objs.foldl (sweepDoObject adjust) st

/-- An abstract finite object graph for the mark phase: objects are
numbered below numObjs; fields i lists the oop field slots of object i,
none being a null reference. -/
structure ObjGraph where
  numObjs : Nat
  fields : Nat → List (Option Nat)

/-- State of the mark phase: the live bitmap, the mark stack, and the
ghost trace of all pushes performed (most recent first). -/
structure MarkState where
  bitmap : Finset Nat
  stack : List Nat
  pushes : List Nat

/-- ScanOopClosure::do_oop_work (msweepHeap.cpp lines 280-297) on one oop
slot: a null reference is skipped; otherwise the live-bitmap bit of the
referent is tested, and only if it is unset the bit is set and the object
is pushed on the mark stack (recorded in the ghost push trace). -/
def scanOop (st : MarkState) (o : Option Nat) : MarkState :=
  match o with
  | none => st
  | some obj =>
      if obj ∈ st.bitmap then st
      else { bitmap := insert obj st.bitmap, stack := obj :: st.stack,
             pushes := obj :: st.pushes }

/-- oop_iterate and do_roots both apply the scan closure to every slot in
order. -/
def scanOops (st : MarkState) (oops : List (Option Nat)) : MarkState :=
  oops.foldl scanOop st

/-- The pop loop of MSweepHeap::mark (msweepHeap.cpp lines 352-355): while
the stack is nonempty, pop an object and scan its fields. Written with
explicit fuel; that enough fuel drains the stack is the content of the
termination theorem. -/
def markLoop (g : ObjGraph) : Nat → MarkState → MarkState
  | 0, st => st
  | fuel + 1, st =>
      match st.stack with
      | [] => st
      | obj :: rest =>
          markLoop g fuel
            (scanOops { bitmap := st.bitmap, stack := rest, pushes := st.pushes }
              (g.fields obj))

/-- MSweepHeap::mark (msweepHeap.cpp lines 340-356): seed the stack from
the roots starting from an all-clear bitmap (its storage is freshly
committed by the prologue), then drain the stack. -/
def mark (g : ObjGraph) (roots : List (Option Nat)) (fuel : Nat) : MarkState :=
  markLoop g fuel (scanOops { bitmap := ∅, stack := [], pushes := [] } roots)

/-- Reachability from the roots through object fields. -/
inductive Reach (g : ObjGraph) (roots : List (Option Nat)) : Nat → Prop
  | root (t : Nat) : some t ∈ roots → Reach g roots t
  | step (x t : Nat) : Reach g roots x → some t ∈ g.fields x → Reach g roots t

/-- Executable well-formedness of a graph and root set: every field target
of an object below numObjs, and every root target, is below numObjs. -/
def graphWfB (g : ObjGraph) (roots : List (Option Nat)) : Bool :=
  ((List.range g.numObjs).all fun x =>
    (g.fields x).all fun o =>
      match o with
      | none => true
      | some t => decide (t < g.numObjs)) &&
  (roots.all fun o =>
    match o with
    | none => true
    | some t => decide (t < g.numObjs))

/-- Termination measure for the mark loop: unmarked capacity plus stack
height. -/
def markMeasure (g : ObjGraph) (st : MarkState) : Nat :=
  (g.numObjs - st.bitmap.card) + st.stack.length

/-- Invariant of the mark phase: bitmap entries are in range, stack
entries are marked, the push trace is duplicate-free, the bitmap is
exactly the set of pushed objects, and everything marked is reachable. -/
def MarkInv (g : ObjGraph) (roots : List (Option Nat)) (st : MarkState) : Prop :=
  (∀ x ∈ st.bitmap, x < g.numObjs) ∧
  (∀ x ∈ st.stack, x ∈ st.bitmap) ∧
  st.pushes.Nodup ∧
  st.bitmap = st.pushes.toFinset ∧
  (∀ x ∈ st.bitmap, Reach g roots x)

/-- Every marked object is either still pending on the stack or all of its
field targets are already marked. -/
def MarkClosed (g : ObjGraph) (st : MarkState) : Prop :=
  ∀ x ∈ st.bitmap, x ∈ st.stack ∨ ∀ t, some t ∈ g.fields x → t ∈ st.bitmap

/-- A concrete object graph with a cycle and shared sub-objects, for
exercising the mark theorems. -/
def g3 : ObjGraph :=
  { numObjs := 3,
    fields := fun x =>
      match x with
      | 0 => [some 1, none, some 2]
      | 1 => [some 0, some 2]
      | 2 => [some 1]
      | _ => [] }

/-- A concrete root set with a duplicate and a null entry. -/
def roots3 : List (Option Nat) := [some 0, none, some 0]

/-! Helper lemmas on the alignment arithmetic. -/

theorem alignUp_dvd (s a : Nat) : a ∣ alignUp s a := by
  unfold alignUp
  exact Nat.dvd_mul_left a _

theorem alignDown_dvd (s a : Nat) : a ∣ alignDown s a := by
  unfold alignDown
  exact Nat.dvd_mul_left a _

theorem le_alignUp (s a : Nat) (ha : 0 < a) : s ≤ alignUp s a := by
  unfold alignUp
  have h := Nat.lt_div_mul_add (a := s + a - 1) ha
  omega

theorem alignUp_le (s m a : Nat) (ha : 0 < a) (hd : a ∣ m) (h : s ≤ m) :
    alignUp s a ≤ m := by
  obtain ⟨q, rfl⟩ := hd
  unfold alignUp
  have h1 : (s + a - 1) / a ≤ (a * q + a - 1) / a :=
    Nat.div_le_div_right (by omega)
  have h2 : (a * q + a - 1) / a = q + (a - 1) / a := by
    have : a * q + a - 1 = a * q + (a - 1) := by omega
    rw [this, Nat.mul_add_div ha]
  have h3 : (a - 1) / a = 0 := Nat.div_eq_of_lt (by omega)
  calc (s + a - 1) / a * a ≤ (q + 0) * a := by
        rw [← h3, ← h2]; exact Nat.mul_le_mul_right a h1
    _ = a * q := by ring

theorem alignUp_eq_of_dvd (s a : Nat) (ha : 0 < a) (hd : a ∣ s) :
    alignUp s a = s :=
  Nat.le_antisymm (alignUp_le s s a ha hd le_rfl) (le_alignUp s a ha)

/-! Theorems settling the claims. -/

/-- Claim C9: at startup, a configured maximum TLAB size smaller than the
global minimum is corrected to that minimum with a logged warning, and is
left unchanged otherwise; the adjustment always returns normally. -/
theorem adjustMSweepMaxTLABSize_spec (m n : Nat) :
    (adjustMSweepMaxTLABSize m n).1 = max m n ∧
    ((adjustMSweepMaxTLABSize m n).2 = true ↔ m < n) := by
  unfold adjustMSweepMaxTLABSize
  by_cases h : m < n
  · simp [h, Nat.max_eq_right h.le]
  · simp [h, Nat.max_eq_left (Nat.not_lt.mp h)]

/-- Claim C8: allocate_work is a contract-checked entry point: for an
object-aligned size the defensive assert cannot fire and the allocator is
consulted, while every unaligned size trips the fatal check (modelled as
the error value) before any allocation. -/
theorem allocate_work_alignment_contract (a : Nat) (alloc : Nat → Option Nat)
    (size : Nat) :
    (isObjectAligned a size = true →
      allocate_work a alloc size = Except.ok (alloc size)) ∧
    (isObjectAligned a size = false →
      allocate_work a alloc size = Except.error ()) := by
  unfold allocate_work
  constructor <;> intro h <;> simp [h]

/-- Witness for C8 at alignment 2: size 4 passes the contract, size 3 is
fatal. -/
theorem allocate_work_alignment_contract_witness :
    allocate_work 2 (fun _ => some 0) 4 = Except.ok (some 0) ∧
    allocate_work 2 (fun _ => some 0) 3 = Except.error () :=
  ⟨(allocate_work_alignment_contract 2 (fun _ => some 0) 4).1 (by decide),
   (allocate_work_alignment_contract 2 (fun _ => some 0) 3).2 (by decide)⟩

/-- Claim C3: allocate_or_collect_work first tries direct allocation; it
triggers exactly one collection cycle and exactly one retry if and only if
the first attempt returns the null sentinel, and it returns the second
result to the caller with no further retry. -/
theorem allocate_or_collect_retry {σ : Type} (alloc : σ → Nat → Option Nat × σ)
    (gc : σ → σ) (s : σ) (size : Nat) (r : Option Nat × σ × List AllocEvent)
    (hr : allocate_or_collect_work alloc gc s size = r) :
    ((alloc s size).1.isSome = true →
      r.1 = (alloc s size).1 ∧ r.2.2 = [AllocEvent.tryAlloc]) ∧
    ((alloc s size).1 = none →
      r.1 = (alloc (gc (alloc s size).2) size).1 ∧
      r.2.2 = [AllocEvent.tryAlloc, AllocEvent.collectCycle, AllocEvent.tryAlloc]) ∧
    (r.2.2.count AllocEvent.collectCycle
      = if (alloc s size).1.isSome then 0 else 1) ∧
    r.2.2.count AllocEvent.tryAlloc ≤ 2 := by
  subst hr
  unfold allocate_or_collect_work
  rcases h1 : alloc s size with ⟨r1, s1⟩
  cases r1 with
  | some a => simp [h1]
  | none =>
      rcases h2 : alloc (gc s1) size with ⟨r2, s3⟩
      simp [h1, h2, List.count_cons]

/-- Witness for C3: with a state where the first attempt fails and the
post-collection attempt succeeds, the trace is try, collect, try and the
second result is returned. -/
theorem allocate_or_collect_retry_witness :
    ((fun (s : Nat) (_ : Nat) => (if s = 0 then (none : Option Nat) else some 5, s + 1)) 0 8).1 = none ∧
    (allocate_or_collect_work
        (fun (s : Nat) (_ : Nat) => (if s = 0 then (none : Option Nat) else some 5, s + 1))
        (fun s => s + 10) 0 8).1 = some 5 ∧
    (allocate_or_collect_work
        (fun (s : Nat) (_ : Nat) => (if s = 0 then (none : Option Nat) else some 5, s + 1))
        (fun s => s + 10) 0 8).2.2
      = [AllocEvent.tryAlloc, AllocEvent.collectCycle, AllocEvent.tryAlloc] := by
  have h := allocate_or_collect_retry
    (fun (s : Nat) (_ : Nat) => (if s = 0 then (none : Option Nat) else some 5, s + 1))
    (fun s => s + 10) 0 8 _ rfl
  have h2 := h.2.1 (by decide)
  exact ⟨by decide, by rw [h2.1]; decide, h2.2⟩

/-- Claim C10: when allocate_new_tlab fails, the actual_size out-parameter
is left unmodified; it is written with the clamped, aligned size exactly
when the returned address is non-null. -/
theorem allocate_new_tlab_frame (a maxT minSize requestedSize actualIn : Nat)
    (alloc : Nat → Option Nat) :
    ((allocate_new_tlab a maxT alloc minSize requestedSize actualIn).res = none →
      (allocate_new_tlab a maxT alloc minSize requestedSize actualIn).actual = actualIn) ∧
    ((allocate_new_tlab a maxT alloc minSize requestedSize actualIn).res ≠ none →
      (allocate_new_tlab a maxT alloc minSize requestedSize actualIn).actual
        = alignUp (clampSize requestedSize minSize maxT) a) := by
  unfold allocate_new_tlab
  cases h : alloc (alignUp (clampSize requestedSize minSize maxT) a) <;> simp [h]

/-- Witness for C10: a failing allocation leaves the out-parameter at its
prior value 37. -/
theorem allocate_new_tlab_frame_witness :
    (allocate_new_tlab 2 8 (fun _ => none) 2 5 37).res = none ∧
    (allocate_new_tlab 2 8 (fun _ => none) 2 5 37).actual = 37 :=
  ⟨by decide, (allocate_new_tlab_frame 2 8 2 5 37 (fun _ => none)).1 (by decide)⟩

/-- Claim C4: for min_size at most _max_tlab_size, a successful
allocate_new_tlab returns actual_size equal to
clamp(requested, min, _max_tlab_size) rounded up to the minimum object
alignment, which lies between min_size and _max_tlab_size, itself at most
the global max TLAB size, and is a multiple of the alignment unit;
under-min requests yield round_up(min_size) and over-max requests yield
round_up(_max_tlab_size). -/
theorem allocate_new_tlab_clamp_law
    (maxIntSize a msweepMaxBytes heapWordSize minSize requestedSize actualIn : Nat)
    (allocOrCollect : Nat → Option Nat) (maxT : Nat)
    (hmaxT : maxT = max_tlab_size (globalMaxTlabSize maxIntSize a) a msweepMaxBytes heapWordSize)
    (ha : 0 < a) (hmin : minSize ≤ maxT) (r : TLABResult)
    (hr : allocate_new_tlab a maxT allocOrCollect minSize requestedSize actualIn = r)
    (hs : r.res.isSome = true) :
    r.actual = alignUp (clampSize requestedSize minSize maxT) a ∧
    minSize ≤ r.actual ∧ r.actual ≤ maxT ∧
    maxT ≤ globalMaxTlabSize maxIntSize a ∧
    a ∣ r.actual ∧
    (requestedSize < minSize → r.actual = alignUp minSize a) ∧
    (maxT < requestedSize → r.actual = alignUp maxT a) := by
  subst hr
  have hdvd : a ∣ maxT := by
    rw [hmaxT]
    unfold max_tlab_size globalMaxTlabSize
    rcases min_choice (alignDown maxIntSize a) (alignUp (msweepMaxBytes / heapWordSize) a)
      with h | h <;> rw [h]
    · exact alignDown_dvd maxIntSize a
    · exact alignUp_dvd (msweepMaxBytes / heapWordSize) a
  have hact : (allocate_new_tlab a maxT allocOrCollect minSize requestedSize actualIn).actual
      = alignUp (clampSize requestedSize minSize maxT) a := by
    unfold allocate_new_tlab at hs ⊢
    simp only at hs ⊢
    simp [hs]
  rw [hact]
  have hclamp_le : clampSize requestedSize minSize maxT ≤ maxT := min_le_right _ _
  have hclamp_ge : minSize ≤ clampSize requestedSize minSize maxT :=
    le_min (le_max_right _ _) hmin
  refine ⟨rfl, le_trans hclamp_ge (le_alignUp _ a ha),
    alignUp_le _ maxT a ha hdvd hclamp_le, hmaxT ▸ min_le_left _ _,
    alignUp_dvd _ a, ?_, ?_⟩
  · intro h
    have : clampSize requestedSize minSize maxT = minSize := by
      unfold clampSize
      rw [max_eq_right h.le, min_eq_left hmin]
    rw [this]
  · intro h
    have : clampSize requestedSize minSize maxT = maxT := by
      unfold clampSize
      rw [max_eq_left (le_trans hmin h.le), min_eq_right h.le]
    rw [this]

/-- Witness for C4 at alignment 2 with _max_tlab_size 8: the request 5 is
granted as the aligned size 6, between min 2 and max 8. -/
theorem allocate_new_tlab_clamp_law_witness :
    (0 : Nat) < 2 ∧ (2 : Nat) ≤ 8 ∧
    (allocate_new_tlab 2 8 (fun _ => some 7) 2 5 0).res.isSome = true ∧
    (allocate_new_tlab 2 8 (fun _ => some 7) 2 5 0).actual
      = alignUp (clampSize 5 2 8) 2 ∧
    2 ≤ (allocate_new_tlab 2 8 (fun _ => some 7) 2 5 0).actual ∧
    (allocate_new_tlab 2 8 (fun _ => some 7) 2 5 0).actual ≤ 8 := by
  have h := allocate_new_tlab_clamp_law 100 2 64 8 2 5 0 (fun _ => some 7) 8
    (by decide) (by decide) (by decide) _ rfl (by decide)
  exact ⟨by decide, by decide, by decide, h.1, h.2.1, h.2.2.1⟩

/-- Counterexample to claim C5 as stated: an explicit external collection
request (and likewise an allocation-failure cause) arriving at
MSweepHeap::collect does not run the cycle: no mark or sweep phase appears
in the trace. -/
theorem collect_ignores_explicit_request :
    GCOp.markPhase ∉ collect GCCause.java_lang_system_gc ∧
    GCOp.sweepPhase ∉ collect GCCause.allocation_failure := by
  decide

/-- Claim C5 (amended): collect never runs any part of the
prologue-mark-sweep-epilogue cycle for any cause; the full cycle, with
mark followed by sweep, is run unconditionally by entry_collect, the entry
point reached through the allocation-failure VM operation. -/
theorem collect_dispatch_vs_entry_collect :
    (∀ c, GCOp.markPhase ∉ collect c ∧ GCOp.sweepPhase ∉ collect c ∧
      GCOp.ensureParsability ∉ collect c ∧ GCOp.tryUncommitBitmap ∉ collect c) ∧
    (∀ co un, [GCOp.markPhase, GCOp.sweepPhase].Sublist (entry_collect co un) ∧
      GCOp.markPhase ∈ entry_collect co un ∧ GCOp.sweepPhase ∈ entry_collect co un) := by
  constructor
  · intro c
    cases c <;> decide
  · intro co un
    cases co <;> cases un <;> decide

/-- Claim C6: the metadata sizing causes delegate to the metaspace sizing
routine and run none of prologue, mark, sweep, or epilogue; every other
modelled cause only logs, and nothing collect does mutates heap state. -/
theorem collect_metadata_sizing (c : GCCause) :
    (isMetadataCause c = true →
      collect c = [GCOp.logInfo, GCOp.metaspaceComputeNewSize] ∧
      GCOp.markPhase ∉ collect c ∧ GCOp.sweepPhase ∉ collect c ∧
      GCOp.tryCommitBitmap ∉ collect c ∧ GCOp.tryUncommitBitmap ∉ collect c ∧
      GCOp.ensureParsability ∉ collect c) ∧
    (isMetadataCause c = false → collect c = [GCOp.logInfo]) ∧
    (∀ op ∈ collect c, GCOp.touchesHeap op = false) := by
  cases c <;> decide

/-- Witness for C6 at the metadata-threshold cause and at a hint cause. -/
theorem collect_metadata_sizing_witness :
    collect GCCause.metadata_GC_threshold
      = [GCOp.logInfo, GCOp.metaspaceComputeNewSize] ∧
    collect GCCause.no_gc = [GCOp.logInfo] :=
  ⟨((collect_metadata_sizing GCCause.metadata_GC_threshold).1 (by decide)).1,
   (collect_metadata_sizing GCCause.no_gc).2.1 (by decide)⟩

/-- Counterexample to claim C7 as stated: when committing the live-bitmap
storage fails, the prologue neither logs the failure nor flushes the
mutator TLABs (it returns early before ensure_parsability). -/
theorem prologue_commit_failure_skips_flush :
    GCOp.logWarning ∉ prologue false ∧ GCOp.logInfo ∉ prologue false ∧
    GCOp.ensureParsability ∉ prologue false := by
  decide

/-- Claim C7 (amended): a commit failure makes the prologue return early,
unlogged and without the TLAB flush, yet the cycle still proceeds through
mark, sweep and epilogue; an uncommit failure in the epilogue logs a
warning and the cycle completes; neither failure is propagated as an error
value (both phases return plain traces for every outcome). -/
theorem bitmap_commit_uncommit_soft_failure :
    prologue false = [GCOp.tryCommitBitmap] ∧
    prologue true = [GCOp.tryCommitBitmap, GCOp.ensureParsability] ∧
    (∀ co un, GCOp.markPhase ∈ entry_collect co un ∧
      GCOp.sweepPhase ∈ entry_collect co un ∧
      GCOp.tryUncommitBitmap ∈ entry_collect co un) ∧
    GCOp.logWarning ∈ epilogue false ∧
    epilogue true = [GCOp.tryUncommitBitmap] := by
  refine ⟨by decide, by decide, ?_, by decide, by decide⟩
  intro co un
  cases co <;> cases un <;> decide

/-! Lemmas for the mark phase. -/

/-- One application of the scan closure preserves the mark invariant, only
grows the bitmap, keeps existing stack entries, marks the scanned target,
puts any newly marked object on the stack, and does not increase the
termination measure. -/
theorem scanOop_step (g : ObjGraph) (roots : List (Option Nat)) (o : Option Nat)
    (st : MarkState)
    (ht : ∀ t, o = some t → t < g.numObjs ∧ Reach g roots t)
    (hinv : MarkInv g roots st) :
    MarkInv g roots (scanOop st o) ∧
    st.bitmap ⊆ (scanOop st o).bitmap ∧
    (∀ x ∈ st.stack, x ∈ (scanOop st o).stack) ∧
    (∀ t, o = some t → t ∈ (scanOop st o).bitmap) ∧
    (∀ x ∈ (scanOop st o).bitmap, x ∈ st.bitmap ∨ x ∈ (scanOop st o).stack) ∧
    markMeasure g (scanOop st o) ≤ markMeasure g st := by
  obtain ⟨hbound, hstack, hnodup, hbm, hreach⟩ := hinv
  cases o with
  | none =>
      have hred : scanOop st none = st := rfl
      simp only [hred]
      refine ⟨⟨hbound, hstack, hnodup, hbm, hreach⟩, Finset.Subset.refl _,
        fun x hx => hx, ?_, fun x hx => Or.inl hx, le_refl _⟩
      intro t h
      exact absurd h (by simp)
  | some obj =>
      by_cases hmem : obj ∈ st.bitmap
      · have hred : scanOop st (some obj) = st := by
          simp [scanOop, hmem]
        simp only [hred]
        refine ⟨⟨hbound, hstack, hnodup, hbm, hreach⟩, Finset.Subset.refl _,
          fun x hx => hx, ?_, fun x hx => Or.inl hx, le_refl _⟩
        intro t h
        cases h
        exact hmem
      · obtain ⟨hoN, hoR⟩ := ht obj rfl
        have hred : scanOop st (some obj) =
            { bitmap := insert obj st.bitmap, stack := obj :: st.stack,
              pushes := obj :: st.pushes } := by
          simp [scanOop, hmem]
        simp only [hred]
        have hnotpush : obj ∉ st.pushes := by
          intro hcon
          exact hmem (hbm ▸ List.mem_toFinset.mpr hcon)
        have hboundinsert : ∀ x ∈ insert obj st.bitmap, x < g.numObjs := by
          intro x hx
          rcases Finset.mem_insert.mp hx with h | h
          · exact h ▸ hoN
          · exact hbound x h
        refine ⟨⟨hboundinsert, ?_, ?_, ?_, ?_⟩, Finset.subset_insert _ _,
          fun x hx => List.mem_cons_of_mem _ hx, ?_, ?_, ?_⟩
        · intro x hx
          rcases List.mem_cons.mp hx with h | h
          · exact h ▸ Finset.mem_insert_self _ _
          · exact Finset.mem_insert_of_mem (hstack x h)
        · exact List.Nodup.cons hnotpush hnodup
        · rw [List.toFinset_cons, hbm]
        · intro x hx
          rcases Finset.mem_insert.mp hx with h | h
          · exact h ▸ hoR
          · exact hreach x h
        · intro t h
          cases h
          exact Finset.mem_insert_self _ _
        · intro x hx
          rcases Finset.mem_insert.mp hx with h | h
          · exact Or.inr (h ▸ List.mem_cons_self _ _)
          · exact Or.inl h
        · have hsub : insert obj st.bitmap ⊆ Finset.range g.numObjs := by
            intro x hx
            exact Finset.mem_range.mpr (hboundinsert x hx)
          have hcard : (insert obj st.bitmap).card ≤ g.numObjs := by
            have := Finset.card_le_card hsub
            simpa using this
          unfold markMeasure
          rw [Finset.card_insert_of_not_mem hmem] at hcard ⊢
          simp only [List.length_cons]
          omega

/-- Scanning a list of oop slots (a root set or one object's fields)
preserves the invariant, grows the bitmap monotonically, keeps stack
entries, marks every non-null slot target, leaves new bitmap entries on
the stack, and does not increase the measure. -/
theorem scanOops_master (g : ObjGraph) (roots : List (Option Nat))
    (oops : List (Option Nat)) (st : MarkState)
    (ht : ∀ t, some t ∈ oops → t < g.numObjs ∧ Reach g roots t)
    (hinv : MarkInv g roots st) :
    MarkInv g roots (scanOops st oops) ∧
    st.bitmap ⊆ (scanOops st oops).bitmap ∧
    (∀ x ∈ st.stack, x ∈ (scanOops st oops).stack) ∧
    (∀ t, some t ∈ oops → t ∈ (scanOops st oops).bitmap) ∧
    (∀ x ∈ (scanOops st oops).bitmap, x ∈ st.bitmap ∨ x ∈ (scanOops st oops).stack) ∧
    markMeasure g (scanOops st oops) ≤ markMeasure g st := by
  induction oops generalizing st with
  | nil =>
      exact ⟨hinv, Finset.Subset.refl _, fun x hx => hx, by simp,
        fun x hx => Or.inl hx, le_refl _⟩
  | cons o oops ih =>
      obtain ⟨s1, s2, s3, s4, s5, s6⟩ :=
        scanOop_step g roots o st (fun t h => ht t (by simp [h])) hinv
      obtain ⟨i1, i2, i3, i4, i5, i6⟩ :=
        ih (scanOop st o) (fun t h => ht t (List.mem_cons_of_mem o h)) s1
      have hred : scanOops st (o :: oops) = scanOops (scanOop st o) oops := rfl
      simp only [hred]
      refine ⟨i1, s2.trans i2, fun x hx => i3 x (s3 x hx), ?_, ?_, i6.trans s6⟩
      · intro t hmem
        rcases List.mem_cons.mp hmem with h | h
        · exact i2 (s4 t h.symm)
        · exact i4 t h
      · intro x hx
        rcases i5 x hx with h | h
        · rcases s5 x h with h1 | h1
          · exact Or.inl h1
          · exact Or.inr (i3 x h1)
        · exact Or.inr h

/-- Draining the mark stack with fuel at least the termination measure
empties the stack, preserves the invariant and closedness, and only grows
the bitmap. -/
theorem markLoop_spec (g : ObjGraph) (roots : List (Option Nat))
    (hwf : ∀ x, x < g.numObjs → ∀ t, some t ∈ g.fields x → t < g.numObjs) :
    ∀ fuel st, markMeasure g st ≤ fuel → MarkInv g roots st → MarkClosed g st →
      (markLoop g fuel st).stack = [] ∧
      MarkInv g roots (markLoop g fuel st) ∧
      MarkClosed g (markLoop g fuel st) ∧
      st.bitmap ⊆ (markLoop g fuel st).bitmap := by
  intro fuel
  induction fuel with
  | zero =>
      intro st hfuel hinv hclosed
      have hnil : st.stack = [] := by
        unfold markMeasure at hfuel
        exact List.eq_nil_of_length_eq_zero (by omega)
      simp only [markLoop]
      exact ⟨hnil, hinv, hclosed, Finset.Subset.refl _⟩
  | succ fuel ih =>
      intro st hfuel hinv hclosed
      cases hsk : st.stack with
      | nil =>
          simp only [markLoop, hsk]
          exact ⟨trivial, hinv, hclosed, Finset.Subset.refl _⟩
      | cons obj rest =>
          obtain ⟨hbound, hstack, hnodup, hbm, hreach⟩ := hinv
          have hobjbm : obj ∈ st.bitmap :=
            hstack obj (hsk ▸ List.mem_cons_self obj rest)
          have hobjN : obj < g.numObjs := hbound obj hobjbm
          have hobjR : Reach g roots obj := hreach obj hobjbm
          have htargets : ∀ t, some t ∈ g.fields obj →
              t < g.numObjs ∧ Reach g roots t :=
            fun t h => ⟨hwf obj hobjN t h, Reach.step obj t hobjR h⟩
          have hinv0 : MarkInv g roots
              { bitmap := st.bitmap, stack := rest, pushes := st.pushes } := by
            refine ⟨hbound, ?_, hnodup, hbm, hreach⟩
            intro x hx
            exact hstack x (hsk ▸ List.mem_cons_of_mem obj hx)
          obtain ⟨m1, m2, m3, m4, m5, m6⟩ :=
            scanOops_master g roots (g.fields obj)
              { bitmap := st.bitmap, stack := rest, pushes := st.pushes }
              htargets hinv0
          have hmeas0 : markMeasure g
              { bitmap := st.bitmap, stack := rest, pushes := st.pushes } + 1
              = markMeasure g st := by
            unfold markMeasure
            simp only [hsk, List.length_cons]
            omega
          have hmeas1 : markMeasure g
              (scanOops { bitmap := st.bitmap, stack := rest, pushes := st.pushes }
                (g.fields obj)) ≤ fuel := by
            omega
          have hclosed1 : MarkClosed g
              (scanOops { bitmap := st.bitmap, stack := rest, pushes := st.pushes }
                (g.fields obj)) := by
            intro x hx
            rcases m5 x hx with hxbm | hxstk
            · rcases hclosed x hxbm with hxs | hxc
              · rw [hsk] at hxs
                rcases List.mem_cons.mp hxs with h | h
                · subst h
                  exact Or.inr fun t htf => m4 t htf
                · exact Or.inl (m3 x h)
              · exact Or.inr fun t htf => m2 (hxc t htf)
            · exact Or.inl hxstk
          have hred : markLoop g (fuel + 1) st = markLoop g fuel
              (scanOops { bitmap := st.bitmap, stack := rest, pushes := st.pushes }
                (g.fields obj)) := by
            simp only [markLoop, hsk]
          obtain ⟨r1, r2, r3, r4⟩ := ih
            (scanOops { bitmap := st.bitmap, stack := rest, pushes := st.pushes }
              (g.fields obj)) hmeas1 m1 hclosed1
          rw [hred]
          exact ⟨r1, r2, r3, m2.trans r4⟩

/-- Field targets of in-range objects are in range, from the executable
well-formedness check. -/
theorem graphWfB_fields (g : ObjGraph) (roots : List (Option Nat))
    (h : graphWfB g roots = true) :
    ∀ x, x < g.numObjs → ∀ t, some t ∈ g.fields x → t < g.numObjs := by
  intro x hx t ht
  unfold graphWfB at h
  rw [Bool.and_eq_true] at h
  have h1 := h.1
  rw [List.all_eq_true] at h1
  have h2 := h1 x (List.mem_range.mpr hx)
  rw [List.all_eq_true] at h2
  exact of_decide_eq_true (h2 (some t) ht)

/-- Root targets are in range, from the executable well-formedness check. -/
theorem graphWfB_roots (g : ObjGraph) (roots : List (Option Nat))
    (h : graphWfB g roots = true) :
    ∀ t, some t ∈ roots → t < g.numObjs := by
  intro t ht
  unfold graphWfB at h
  rw [Bool.and_eq_true] at h
  have h2 := h.2
  rw [List.all_eq_true] at h2
  exact of_decide_eq_true (h2 (some t) ht)

/-- Claim C2: on a well-formed finite object graph, the mark phase run
with fuel at least the number of objects terminates with an empty stack;
every push happened only after the live bit was tested unset and set, so
the push trace is duplicate-free and the final bitmap is exactly the set
of pushed objects; and that set is exactly the set of objects reachable
from the roots. Hence each reachable object is pushed and marked exactly
once. -/
theorem mark_terminates_marks_each_reachable_once (g : ObjGraph)
    (roots : List (Option Nat)) (hwf : graphWfB g roots = true) (fuel : Nat)
    (hfuel : g.numObjs ≤ fuel) :
    (mark g roots fuel).stack = [] ∧
    (mark g roots fuel).pushes.Nodup ∧
    (∀ x, x ∈ (mark g roots fuel).bitmap ↔ Reach g roots x) ∧
    (mark g roots fuel).bitmap = (mark g roots fuel).pushes.toFinset := by
  have hinv0 : MarkInv g roots { bitmap := ∅, stack := [], pushes := [] } := by
    refine ⟨?_, ?_, List.nodup_nil, by simp, ?_⟩
    · intro x hx
      exact absurd hx (Finset.not_mem_empty x)
    · intro x hx
      exact absurd hx (List.not_mem_nil x)
    · intro x hx
      exact absurd hx (Finset.not_mem_empty x)
  have htroots : ∀ t, some t ∈ roots → t < g.numObjs ∧ Reach g roots t :=
    fun t h => ⟨graphWfB_roots g roots hwf t h, Reach.root t h⟩
  obtain ⟨m1, m2, m3, m4, m5, m6⟩ :=
    scanOops_master g roots roots { bitmap := ∅, stack := [], pushes := [] }
      htroots hinv0
  have hmeas : markMeasure g
      (scanOops { bitmap := ∅, stack := [], pushes := [] } roots) ≤ fuel := by
    have h0 : markMeasure g { bitmap := ∅, stack := [], pushes := [] }
        = g.numObjs := by
      unfold markMeasure
      simp
    omega
  have hclosed : MarkClosed g
      (scanOops { bitmap := ∅, stack := [], pushes := [] } roots) := by
    intro x hx
    rcases m5 x hx with h | h
    · exact absurd h (Finset.not_mem_empty x)
    · exact Or.inl h
  obtain ⟨r1, r2, r3, r4⟩ :=
    markLoop_spec g roots (graphWfB_fields g roots hwf) fuel
      (scanOops { bitmap := ∅, stack := [], pushes := [] } roots) hmeas m1 hclosed
  have hred : mark g roots fuel = markLoop g fuel
      (scanOops { bitmap := ∅, stack := [], pushes := [] } roots) := rfl
  obtain ⟨f1, f2, f3, f4, f5⟩ := r2
  have hcompl : ∀ x, Reach g roots x → x ∈ (mark g roots fuel).bitmap := by
    intro x hr
    rw [hred]
    induction hr with
    | root t hmem => exact r4 (m4 t hmem)
    | step y t hy htf ihy =>
        rcases r3 y ihy with hs | hc
        · rw [r1] at hs
          exact absurd hs (List.not_mem_nil y)
        · exact hc t htf
  rw [hred] at hcompl ⊢
  exact ⟨r1, f3, fun x => ⟨fun hx => f5 x hx, fun hr => hcompl x hr⟩, f4⟩

/-- Witness for C2 on the concrete graph g3 (a cycle through objects 0, 1,
2 with shared references) with duplicate roots: the mark run with fuel 3
terminates, pushes without duplicates, and object 2 is marked exactly when
it is reachable. -/
theorem mark_terminates_marks_each_reachable_once_witness :
    graphWfB g3 roots3 = true ∧
    (mark g3 roots3 3).stack = [] ∧
    (mark g3 roots3 3).pushes.Nodup ∧
    (2 ∈ (mark g3 roots3 3).bitmap ↔ Reach g3 roots3 2) := by
  have h := mark_terminates_marks_each_reachable_once g3 roots3 (by decide) 3
    (by decide)
  exact ⟨by decide, h.1, h.2.1, h.2.2.1 2⟩

/-- The sweep fold never changes the live bitmap. -/
theorem sweep_marked_eq (adjust : Nat → Nat) (objs : List ObjInfo)
    (st : SweepState) : (sweep adjust objs st).marked = st.marked := by
  induction objs generalizing st with
  | nil => rfl
  | cons o objs ih =>
      show (sweep adjust objs (sweepDoObject adjust st o)).marked = st.marked
      rw [ih]
      unfold sweepDoObject
      split <;> rfl

/-- Claim C1: sweeping appends to the free list exactly one chunk, of size
adjust_chunk_size(object size) at the object's address, for every visited
object whose address is unmarked in the live bitmap, in iteration order;
marked objects contribute nothing, and no live-bitmap bit is cleared. -/
theorem sweep_free_list_spec (adjust : Nat → Nat) (objs : List ObjInfo)
    (st : SweepState) :
    (sweep adjust objs st).freeList =
      st.freeList ++ (objs.filter fun o => !st.marked o.addr).map
        (fun o => { start := o.addr, chunkSize := adjust o.size }) ∧
    (sweep adjust objs st).marked = st.marked := by
  refine ⟨?_, sweep_marked_eq adjust objs st⟩
  induction objs generalizing st with
  | nil => simp [sweep]
  | cons o objs ih =>
      show (sweep adjust objs (sweepDoObject adjust st o)).freeList = _
      by_cases h : st.marked o.addr
      · rw [show sweepDoObject adjust st o = st by unfold sweepDoObject; simp [h]]
        rw [ih st]
        simp [h]
      · have hst : sweepDoObject adjust st o =
            { st with freeList :=
                st.freeList ++ [{ start := o.addr, chunkSize := adjust o.size }] } := by
          unfold sweepDoObject
          simp [h]
        rw [hst, ih]
        simp [h]

end MSweep
